import Mathlib

/-!
Verification development for the autofold parsing/normalization core.

The definitions below are a shallow embedding of the TypeScript sources:
`src/utils.ts` (the five format adapters `transformTreeString`,
`transformNestedTree`, `transformFlatObject`, `parsePathSegments`,
`createDirectoryTree`, the shared `sortChildren` and `hasFileExtension`
helpers, and the `createStructure` materializer) and the CLI dispatch in
`src/cli.ts`.

Modelling conventions:
* JavaScript objects become association lists `List (String × _)` in key
  enumeration order; object key lookups become association-list lookups.
* `Array.prototype.sort` with a comparator is a stable sort; it is modelled
  with the (stable) `List.insertionSort` from Mathlib.
* `String.prototype.localeCompare` is modelled as code-point lexicographic
  comparison, following the spec's description of the order as
  case-sensitive lexicographic; the same code-point order models the
  default comparator of `Array.prototype.sort` on strings (they agree on
  all inputs without surrogate pairs).
* String primitives (`split`, `trim`, `includes`, `startsWith`, `endsWith`)
  are re-implemented structurally on `List Char` so that every definition
  evaluates inside the kernel; each is a faithful rendering of the
  ECMAScript builtin for the character sets that matter here (the JS
  whitespace class is modelled by `Char.isWhitespace`, i.e. space, tab, CR,
  LF).
* In-place mutation of nodes reached through shared references is rendered
  as pure tree reconstruction addressed by the node's path; this is
  observationally equivalent for the returned trees (orphan nodes that the
  source keeps in its `nodeMap` without attaching them to any root are
  tracked in the path map but never appear in the output, exactly as in the
  source).
* Filesystem effects of the materializer are rendered as an explicit
  operation trace together with a threaded filesystem state.
-/

namespace Autofold

/-! ### String utilities (models of ECMAScript string builtins) -/

/-- Strict code-point lexicographic order on character lists (the order
underlying `localeCompare` as modelled here, and the default string
comparator of `Array.prototype.sort`). -/
def charsLtb : List Char → List Char → Bool
  | [], [] => false
  | [], _ :: _ => true
  | _ :: _, [] => false
  | a :: as, b :: bs => if a < b then true else if b < a then false else charsLtb as bs

/-- Non-strict string comparison: `strLeb a b` is true iff the comparator
`a.localeCompare(b)` (modelled as code-point comparison) is non-positive. -/
def strLeb (a b : String) : Bool := !(charsLtb b.data a.data)

/-- Propositional form of `strLeb`. -/
def strLe (a b : String) : Prop := strLeb a b = true

instance : DecidableRel strLe := fun a b => instDecidableEqBool (strLeb a b) true

theorem charsLtb_asymm (a b : List Char) (h : charsLtb a b = true) : charsLtb b a = false := by
  induction a generalizing b with
  | nil =>
    cases b with
    | nil => simp [charsLtb] at h
    | cons y ys => simp [charsLtb]
  | cons x xs ih =>
    cases b with
    | nil => simp [charsLtb] at h
    | cons y ys =>
      rcases lt_trichotomy x y with hxy | hxy | hxy
      · simp [charsLtb, hxy, not_lt_of_gt hxy]
      · subst hxy
        simp only [charsLtb, lt_irrefl, if_false] at h ⊢
        exact ih ys h
      · simp [charsLtb, hxy, not_lt_of_gt hxy] at h

theorem charsLtb_trans (a b c : List Char) (h1 : charsLtb a b = true)
    (h2 : charsLtb b c = true) : charsLtb a c = true := by
  induction a generalizing b c with
  | nil =>
    cases c with
    | nil =>
      cases b with
      | nil => simp [charsLtb] at h1
      | cons y ys => simp [charsLtb] at h2
    | cons z zs => simp [charsLtb]
  | cons x xs ih =>
    cases b with
    | nil => simp [charsLtb] at h1
    | cons y ys =>
      cases c with
      | nil => simp [charsLtb] at h2
      | cons z zs =>
        rcases lt_trichotomy x y with hxy | hxy | hxy
        · rcases lt_trichotomy y z with hyz | hyz | hyz
          · simp [charsLtb, lt_trans hxy hyz]
          · subst hyz; simp [charsLtb, hxy]
          · simp [charsLtb, hyz, not_lt_of_gt hyz] at h2
        · subst hxy
          rcases lt_trichotomy x z with hxz | hxz | hxz
          · simp [charsLtb, hxz]
          · subst hxz
            simp only [charsLtb, lt_irrefl, if_false] at h1 h2 ⊢
            exact ih ys zs h1 h2
          · simp [charsLtb, hxz, not_lt_of_gt hxz] at h2
        · simp [charsLtb, hxy, not_lt_of_gt hxy] at h1

theorem charsLtb_connex (a b : List Char) (hab : charsLtb a b = false)
    (hba : charsLtb b a = false) : a = b := by
  induction a generalizing b with
  | nil =>
    cases b with
    | nil => rfl
    | cons x xs => simp [charsLtb] at hab
  | cons x xs ih =>
    cases b with
    | nil => simp [charsLtb] at hba
    | cons y ys =>
      rcases lt_trichotomy x y with h | h | h
      · simp [charsLtb, h] at hab
      · subst h
        simp only [charsLtb, lt_irrefl, if_false] at hab hba
        rw [ih ys hab hba]
      · simp [charsLtb, h, not_lt_of_gt h] at hba

theorem strLe_total (a b : String) : strLe a b ∨ strLe b a := by
  unfold strLe strLeb
  rcases h : charsLtb b.data a.data
  · exact Or.inl (by simp [h])
  · exact Or.inr (by simp [charsLtb_asymm _ _ h])

theorem strLe_trans {a b c : String} (h1 : strLe a b) (h2 : strLe b c) : strLe a c := by
  unfold strLe strLeb at h1 h2 ⊢
  simp only [Bool.not_eq_true'] at h1 h2 ⊢
  by_contra hca
  simp only [Bool.not_eq_false] at hca
  rcases hbc : charsLtb b.data c.data
  · have hdata : b.data = c.data := charsLtb_connex _ _ hbc h2
    rw [hdata] at h1
    rw [h1] at hca
    exact nomatch hca
  · have hba := charsLtb_trans _ _ _ hbc hca
    rw [hba] at h1
    exact nomatch h1

instance : IsTotal String strLe := ⟨strLe_total⟩

instance : IsTrans String strLe := ⟨fun _ _ _ => strLe_trans⟩

/-- Splitting a character list at every occurrence of a separator
(ECMAScript `String.prototype.split` with a single-character separator:
`""` splits to `[""]`, separators at the ends produce empty pieces). -/
def splitChars (sep : Char) : List Char → List (List Char)
  | [] => [[]]
  | c :: rest =>
    if c = sep then [] :: splitChars sep rest
    else
      match splitChars sep rest with
      | h :: t => (c :: h) :: t
      | [] => [[c]]

/-- `String.prototype.split` with a one-character separator. -/
def strSplitOn (sep : Char) (s : String) : List String :=
  (splitChars sep s.data).map String.mk

/-- `String.prototype.trimEnd` (whitespace per `Char.isWhitespace`). -/
def strTrimEnd (s : String) : String :=
  String.mk ((s.data.reverse.dropWhile Char.isWhitespace).reverse)

/-- `String.prototype.trim` (whitespace per `Char.isWhitespace`). -/
def strTrim (s : String) : String :=
  String.mk (((s.data.dropWhile Char.isWhitespace).reverse.dropWhile Char.isWhitespace).reverse)

/-- `String.prototype.includes` for a single character
(`segment.includes('.')` in the source). -/
def strContainsChar (c : Char) (s : String) : Bool := s.data.any (fun x => x = c)

/-- `String.prototype.endsWith`. -/
def strEndsWith (suffix : String) (s : String) : Bool :=
  suffix.data.isSuffixOf s.data

/-! ### Canonical tree data model -/

/-- Canonical tree node, embedding `FolderNode` from `src/types.ts`:
a file has no children; a folder has an ordered children sequence. -/
inductive FolderNode where
  | file : String → FolderNode
  | folder : String → List FolderNode → FolderNode
deriving Repr

mutual

/-- Structural equality test for nodes (proof infrastructure only; not part
of the source program). -/
def beqNode : FolderNode → FolderNode → Bool
  | .file a, .file b => a == b
  | .folder a cs, .folder b ds => a == b && beqForest cs ds
  | _, _ => false
termination_by structural n => n

/-- Structural equality test for node lists. -/
def beqForest : List FolderNode → List FolderNode → Bool
  | [], [] => true
  | x :: xs, y :: ys => beqNode x y && beqForest xs ys
  | _, _ => false
termination_by structural l => l

end

mutual

theorem beqNode_iff : ∀ a b : FolderNode, beqNode a b = true ↔ a = b
  | .file a, .file b => by simp [beqNode]
  | .file a, .folder b ds => by simp [beqNode]
  | .folder a cs, .file b => by simp [beqNode]
  | .folder a cs, .folder b ds => by simp [beqNode, beqForest_iff cs ds]
termination_by structural a => a

theorem beqForest_iff : ∀ xs ys : List FolderNode, beqForest xs ys = true ↔ xs = ys
  | [], [] => by simp [beqForest]
  | [], _ :: _ => by simp [beqForest]
  | _ :: _, [] => by simp [beqForest]
  | x :: xs, y :: ys => by simp [beqForest, beqNode_iff x y, beqForest_iff xs ys]
termination_by structural xs => xs

end

instance : DecidableEq FolderNode := fun a b =>
  decidable_of_iff (beqNode a b = true) (beqNode_iff a b)

mutual

theorem FolderNode.inductionOn (P : FolderNode → Prop) (h1 : ∀ s, P (.file s))
    (h2 : ∀ s cs, (∀ c ∈ cs, P c) → P (.folder s cs)) : ∀ n, P n
  | .file s => h1 s
  | .folder s cs => h2 s cs (FolderNode.inductionOnList P h1 h2 cs)
termination_by structural n => n

theorem FolderNode.inductionOnList (P : FolderNode → Prop) (h1 : ∀ s, P (.file s))
    (h2 : ∀ s cs, (∀ c ∈ cs, P c) → P (.folder s cs)) : ∀ l : List FolderNode, ∀ c ∈ l, P c
  | [], c, hc => by simp at hc
  | x :: xs, c, hc => by
      rcases List.mem_cons.mp hc with h | h
      · exact h ▸ FolderNode.inductionOn P h1 h2 x
      · exact FolderNode.inductionOnList P h1 h2 xs c h
termination_by structural l => l

end

/-- Name of a node (`node.name`). -/
def FolderNode.name : FolderNode → String
  | .file n => n
  | .folder n _ => n

/-- Whether the node is a folder (`node.type === 'folder'`). -/
def FolderNode.isFolder : FolderNode → Bool
  | .file _ => false
  | .folder _ _ => true

/-- Boolean rendering of the child comparator shared by all adapters:
folders sort before files, and nodes of the same kind sort by name. -/
def nodeLeb : FolderNode → FolderNode → Bool
  | .folder _ _, .file _ => true
  | .file _, .folder _ _ => false
  | a, b => strLeb a.name b.name

/-- Propositional form of `nodeLeb`. -/
def nodeLe (a b : FolderNode) : Prop := nodeLeb a b = true

instance : DecidableRel nodeLe := fun a b => instDecidableEqBool (nodeLeb a b) true

theorem nodeLe_total (a b : FolderNode) : nodeLe a b ∨ nodeLe b a := by
  unfold nodeLe
  rcases a with n | ⟨n, cs⟩ <;> rcases b with m | ⟨m, ds⟩
  · exact (strLe_total n m).imp (fun h => h) (fun h => h)
  · exact Or.inr rfl
  · exact Or.inl rfl
  · exact (strLe_total n m).imp (fun h => h) (fun h => h)

theorem nodeLe_trans {a b c : FolderNode} (h1 : nodeLe a b) (h2 : nodeLe b c) : nodeLe a c := by
  rcases a with n | ⟨n, cs⟩ <;> rcases b with m | ⟨m, ds⟩ <;> rcases c with k | ⟨k, es⟩
  · exact strLe_trans h1 h2
  · exact absurd h2 (by simp [nodeLe, nodeLeb])
  · exact absurd h1 (by simp [nodeLe, nodeLeb])
  · exact absurd h1 (by simp [nodeLe, nodeLeb])
  · exact rfl
  · exact absurd h2 (by simp [nodeLe, nodeLeb])
  · exact rfl
  · exact strLe_trans h1 h2

instance : IsTotal FolderNode nodeLe := ⟨nodeLe_total⟩

instance : IsTrans FolderNode nodeLe := ⟨fun _ _ _ => nodeLe_trans⟩

/-- Stable sort of one children list with the shared comparator
(`children.sort((a, b) => ...)` in the source). -/
def sortNodes (l : List FolderNode) : List FolderNode := List.insertionSort nodeLe l

mutual

/-- Recursive canonical sort of a node's subtree. The source's
`sortChildren` sorts each folder's children array in place and then recurses
into the (unchanged multiset of) children; since the recursive pass
preserves every node's name and kind, running the recursive pass before the
per-level stable sort produces the same tree (`sortNodes_sortForest_comm`
below proves the two orders agree), and this order keeps the recursion
structural. -/
def sortNode : FolderNode → FolderNode
  | .file n => .file n
  | .folder n cs => .folder n (sortNodes (sortForest cs))
termination_by structural n => n

/-- Pointwise recursive sort of a list of nodes (the loop in `sortChildren`;
it does not reorder the list it is handed, only each node's own subtree). -/
def sortForest : List FolderNode → List FolderNode
  | [] => []
  | x :: xs => sortNode x :: sortForest xs
termination_by structural l => l

end

/-- Adjacent-pairs sortedness of one children list under the shared
comparator. -/
def sortedNodes : List FolderNode → Bool
  | [] => true
  | [_] => true
  | a :: b :: rest => nodeLeb a b && sortedNodes (b :: rest)

theorem sortedNodes_iff_chain' : ∀ l : List FolderNode,
    sortedNodes l = true ↔ List.Chain' nodeLe l
  | [] => by simp [sortedNodes]
  | [a] => by simp [sortedNodes]
  | a :: b :: rest => by
      simp [sortedNodes, List.chain'_cons, sortedNodes_iff_chain' (b :: rest), nodeLe]

mutual

/-- Every folder in the subtree has its children folders-first and
name-sorted: the canonicalization invariant. -/
def wellSorted : FolderNode → Bool
  | .file _ => true
  | .folder _ cs => sortedNodes cs && allWellSorted cs
termination_by structural n => n

/-- `wellSorted` for every node of a list. -/
def allWellSorted : List FolderNode → Bool
  | [] => true
  | n :: ns => wellSorted n && allWellSorted ns
termination_by structural l => l

end

/-! ### Tree-string adapter (`transformTreeString`) -/

/-- Membership in the JS word class `\w` (`[A-Za-z0-9_]`). -/
def isWordChar (c : Char) : Bool := c.isAlphanum || c = '_'

/-- Index of the first inline comment in a line: the first position where
`//` occurs not preceded by `/`, or `#` occurs not preceded by a word
character (the regex `(?<!\/)\/\/|(?<!\w)#` of the source, searched left to
right; all characters that can precede a match here are in the basic plane,
so character index and UTF-16 index agree). -/
def commentIdx (prev : Option Char) (i : Nat) : List Char → Option Nat
  | [] => none
  | c :: cs =>
    if c = '/' && cs.head? == some '/' && !(prev == some '/') then some i
    else if c = '#' && (match prev with | some p => !(isWordChar p) | none => true) then some i
    else commentIdx (some c) (i + 1) cs

/-- Strip an inline comment: `line.slice(0, commentIndex).trimEnd()` when a
comment is found, the unchanged line otherwise. -/
def stripComment (s : String) : String :=
  match commentIdx none 0 s.data with
  | some i => strTrimEnd (String.mk (s.data.take i))
  | none => s

/-- Remove one trailing carriage return (`line.replace(/\r$/, '')`). -/
def dropCR (s : String) : String :=
  if strEndsWith "\r" s then String.mk s.data.dropLast else s

/-- Characters counted as tree indentation: whitespace and the box-drawing
connectors (the class `[\s│├└─]`). -/
def isTreeIndentChar (c : Char) : Bool :=
  c.isWhitespace || c = '│' || c = '├' || c = '└' || c = '─'

/-- Replace the box-drawing connectors in the leading indentation run by
spaces, leaving the rest of the line untouched
(`rawLine.replace(/^([├└│─\s]*)/, m => m.replace(/[├└│─]/g, ' '))`). -/
def normalizeLeading : List Char → List Char
  | [] => []
  | c :: rest =>
    if isTreeIndentChar c then
      (if c.isWhitespace then c else ' ') :: normalizeLeading rest
    else c :: rest

/-- An open folder on the parent stack: its depth, its name, and the
children attached so far. -/
structure Frame where
  depth : Nat
  name : String
  children : List FolderNode
deriving Repr

/-- The parent stack (innermost open folder first) and the root list. -/
structure TState where
  stack : List Frame
  roots : List FolderNode
deriving Repr

/-- Pop every open frame whose depth is `≥ d`, closing each popped folder
into its parent frame (or the root list when the stack empties). The source
attaches a folder node to its parent at creation and mutates its children
afterwards; here the attachment is performed when the frame closes, which
yields the same parent and the same position because no sibling can be
attached to the parent while the frame is still open. The `carry` argument
is the folder closed by the previous iteration, still to be attached. -/
def popCarry : Option FolderNode → List Frame → List FolderNode → Nat →
    List Frame × List FolderNode
  | carry, [], roots, _ =>
      ([], roots ++ (match carry with | some c => [c] | none => []))
  | carry, f :: rest, roots, d =>
      let f2 := match carry with
        | some c => Frame.mk f.depth f.name (f.children ++ [c])
        | none => f
      if d ≤ f2.depth then
        popCarry (some (FolderNode.folder f2.name f2.children)) rest roots d
      else (f2 :: rest, roots)

/-- Process one (comment-stripped, non-blank) line of the tree string:
compute the entry's depth from the length of the leading indentation run
divided by 4, classify it as file iff its trimmed text contains a dot, pop
the stack down to the entry's depth, then attach a file to the top frame
(or the roots) or open a new frame for a folder. -/
def stepLine (st : TState) (rawLine : String) : TState :=
  let trimmed := strTrim (String.mk (normalizeLeading rawLine.data))
  if trimmed = "" then st
  else
    let depth := (rawLine.data.takeWhile isTreeIndentChar).length / 4
    let isFile := strContainsChar '.' trimmed
    let name := match trimmed.data with
      | '/' :: rest => String.mk rest
      | _ => trimmed
    let popped := popCarry none st.stack st.roots depth
    if isFile then
      match popped.1 with
      | [] => TState.mk [] (popped.2 ++ [FolderNode.file name])
      | f :: fs =>
          TState.mk (Frame.mk f.depth f.name (f.children ++ [FolderNode.file name]) :: fs)
            popped.2
    else
      TState.mk (Frame.mk depth name [] :: popped.1) popped.2

/-- The tree-string adapter `transformTreeString` from `src/utils.ts`:
empty or blank input yields `[]`; otherwise the lines (CR-stripped,
comment-stripped, blanks dropped) are run through the stack machine and
every folder's children are canonically sorted. -/
def transformTreeString (input : String) : List FolderNode :=
  if strTrim input = "" then []
  else
    let lines := (((strSplitOn '\n' input).map dropCR).map stripComment).filter
      (fun l => strTrim l != "")
    let final := lines.foldl stepLine (TState.mk [] [])
    let closed := popCarry none final.stack final.roots 0
    sortForest closed.2

/-- The tree-string test input of the repository's test suite (the
`autofold` project example, inline comments included). -/
def treeInputLit : String :=
  "\n/autofold\n├── packages\n│   ├── core\n│   ├── cli\n│   ├── config\n│   ├── types\n│   └── modules\n│       ├── proxy\n│       ├── static\n│       ├── tls\n│       └── logging\n├── examples // This is example\n├── tests # This is test\n├── .bunfig.toml\n├── main.ts\n└── tsconfig.json\n"

/-- The canonical tree all five test-suite inputs are expected to produce
(`expectedOutput` in the test suite). -/
def expectedOutputLit : List FolderNode :=
  [FolderNode.folder "autofold"
    [FolderNode.folder "examples" [],
     FolderNode.folder "packages"
       [FolderNode.folder "cli" [],
        FolderNode.folder "config" [],
        FolderNode.folder "core" [],
        FolderNode.folder "modules"
          [FolderNode.folder "logging" [],
           FolderNode.folder "proxy" [],
           FolderNode.folder "static" [],
           FolderNode.folder "tls" []],
        FolderNode.folder "types" []],
     FolderNode.folder "tests" [],
     FolderNode.file ".bunfig.toml",
     FolderNode.file "main.ts",
     FolderNode.file "tsconfig.json"]]

/-! ### Nested-mapping adapter (`transformNestedTree`) -/

/-- Value of one entry of a `NestedTree` from `src/types.ts`: `null`, a
string, or a nested mapping (modelled as an association list in key
order). -/
inductive NestedVal where
  | nullVal : NestedVal
  | strVal : String → NestedVal
  | obj : List (String × NestedVal) → NestedVal
deriving Repr

mutual

/-- The node built for one entry `(name, value)` of a nested mapping:
`null` is a file; otherwise the entry is a file iff the value has zero
enumerable keys (`Object.keys(value).length === 0`: no characters for a
string value, no entries for a mapping) and the name contains a dot; a
folder's children are the recursively traversed entries when the value is
a mapping (a string value contributes no children). -/
def entryNode (name : String) : NestedVal → FolderNode
  | .nullVal => FolderNode.file name
  | .strVal s =>
      if s.length == 0 && strContainsChar '.' name then FolderNode.file name
      else FolderNode.folder name []
  | .obj es =>
      if es.length == 0 && strContainsChar '.' name then FolderNode.file name
      else FolderNode.folder name (sortNodes (collectNodes es))
termination_by structural v => v

/-- The loop of `traverse`: build a node per entry, skipping entries whose
key is the empty string. -/
def collectNodes : List (String × NestedVal) → List FolderNode
  | [] => []
  | (nm, v) :: rest =>
      if nm = "" then collectNodes rest else entryNode nm v :: collectNodes rest
termination_by structural l => l

end

/-- One level of `traverse`: the entry nodes of the level, sorted with the
shared comparator. -/
def traverseLevel (es : List (String × NestedVal)) : List FolderNode :=
  sortNodes (collectNodes es)

/-- The nested-mapping adapter `transformNestedTree` from `src/utils.ts`. -/
def transformNestedTree (input : List (String × NestedVal)) : List FolderNode :=
  traverseLevel input

/-! ### Flat-mapping and segment-list builders
(`transformFlatObject`, `parsePathSegments`) -/

/-- Builder state: `pathMap` maps each full path already seen to the file
flag its node was created with and, for nodes reachable from a root, the
chain of names addressing the node in the forest (`none` for nodes the
source keeps in its `nodeMap` without attaching them to any root); `roots`
is the forest of attached nodes. This mirrors the source's `nodeMap` of
shared node references, reduced to the data the returned forest depends
on. -/
structure BuildSt where
  pathMap : List (String × Bool × Option (List String))
  roots : List FolderNode
deriving Repr

/-- Association-list lookup (`nodeMap.get`). -/
def lookupPath : List (String × Bool × Option (List String)) → String →
    Option (Bool × Option (List String))
  | [], _ => none
  | (q, e) :: rest, p => if q = p then some e else lookupPath rest p

/-- Attach a child at the end of the children of the folder reached by the
address `addr` (a chain of folder names from the roots). When the address
does not lead to an attached folder the forest is unchanged — this is the
case where the source pushes the child onto the children array of a node
that is not reachable from any root, so the child never appears in the
output. -/
def insertChildAt (addr : List String) (c : FolderNode) (ns : List FolderNode) :
    List FolderNode :=
  match addr with
  | [] => ns ++ [c]
  | a :: rest =>
      ns.map (fun n =>
        match n with
        | .folder nm cs => if nm = a then .folder nm (insertChildAt rest c cs) else .folder nm cs
        | other => other)

/-- The file classification of the flat/segments builders: a newly created
node is a file iff its segment is at the last index of the split path and
contains a dot. -/
def segIsFile (i total : Nat) (seg : String) : Bool :=
  i == total - 1 && strContainsChar '.' seg

/-- The inner segment loop shared by `transformFlatObject` and
`parsePathSegments`. `i` is the running index, `total` the number of
segments (including empty ones, which are skipped without advancing the
path), `curPath` the accumulated path string, and `parent` the previous
segment's node when that node is a folder (`parentNode` in the source;
`none` models `parentNode === null`, and the inner option is the parent
node's address in the forest, `none` when the parent itself is not
reachable from any root — attaching to such a parent mutates a node the
returned forest never shows, exactly as in the source). -/
def procSegs (st : BuildSt) (segs : List String) (i total : Nat) (curPath : String)
    (parent : Option (Option (List String))) : BuildSt :=
  match segs with
  | [] => st
  | seg :: rest =>
    if seg = "" then procSegs st rest (i + 1) total curPath parent
    else
      let newPath := if curPath = "" then seg else curPath ++ "/" ++ seg
      match lookupPath st.pathMap newPath with
      | some e =>
          procSegs st rest (i + 1) total newPath (if e.1 then none else some e.2)
      | none =>
          let isF := segIsFile i total seg
          let node := if isF then FolderNode.file seg else FolderNode.folder seg []
          let addr : Option (List String) :=
            if i == 0 then some [seg]
            else match parent with
              | some (some paddr) => some (paddr ++ [seg])
              | _ => none
          let roots2 :=
            if i == 0 then st.roots ++ [node]
            else match parent with
              | some (some paddr) => insertChildAt paddr node st.roots
              | _ => st.roots
          procSegs (BuildSt.mk ((newPath, isF, addr) :: st.pathMap) roots2) rest (i + 1) total
            newPath (if isF then none else some addr)

/-- `transformFlatObject` computed from the key list alone (the source
reads nothing but `Object.keys(input)`). -/
def flatFromKeys (keys : List String) : List FolderNode :=
  if keys.length == 0 then []
  else
    let final := keys.foldl
      (fun st key =>
        if key = "" then st
        else
          let segs := strSplitOn '/' key
          if segs.length == 0 then st
          else procSegs st segs 0 segs.length "" none)
      (BuildSt.mk [] [])
    sortForest final.roots

/-- The flat-mapping adapter `transformFlatObject` from `src/utils.ts`; the
input's boolean values are never consulted. -/
def transformFlatObject (input : List (String × Bool)) : List FolderNode :=
  flatFromKeys (input.map Prod.fst)

/-- The segment-list adapter `parsePathSegments` from `src/utils.ts`. -/
def parsePathSegments (paths : List (List String)) : List FolderNode :=
  if paths.length == 0 then []
  else
    let final := paths.foldl
      (fun st segs =>
        if segs.length == 0 then st
        else procSegs st segs 0 segs.length "" none)
      (BuildSt.mk [] [])
    sortForest final.roots

/-! ### Plain path-list adapter (`createDirectoryTree`) -/

/-- The extension allow-list `FILE_EXTENSIONS`. The module `constants.ts`
that `utils.ts` imports it from is not among the provided sources; the list
is taken verbatim from the repository's sibling implementation of the same
constant (`unnamed/part_004`), which matches the spec's description of a
broad language/data-format extension set. -/
def FILE_EXTENSIONS : List String :=
  [".js", ".ts", ".json", ".toml", ".txt", ".md", ".yml", ".yaml", ".css", ".html",
   ".xml", ".csv", ".log", ".ini", ".conf", ".sh", ".py", ".java", ".c", ".cpp",
   ".h", ".hpp", ".sql", ".rb", ".go", ".php", ".swift", ".kt", ".rs", ".jsx",
   ".tsx", ".scss", ".sass"]

/-- `hasFileExtension` from `src/utils.ts`. -/
def hasFileExtension (fileName : String) : Bool :=
  FILE_EXTENSIONS.any (fun ext => strEndsWith ext fileName)

/-- Whether a child with the given name and kind exists
(`currentNode.children.find(...)` used as an existence test; creation
guarantees at most one match). -/
def cdtFind (ns : List FolderNode) (nm : String) (wantFolder : Bool) : Bool :=
  ns.any (fun n => n.name == nm && n.isFolder == wantFolder)

/-- Apply `f` to the children of the folder named `nm` (descending into the
node `currentNode.children.find(...)` returned; the builder keeps at most
one folder per name in a children list). -/
def updateFolderChildren (ns : List FolderNode) (nm : String)
    (f : List FolderNode → List FolderNode) : List FolderNode :=
  ns.map (fun n =>
    match n with
    | .folder name cs => if name = nm then .folder name (f cs) else .folder name cs
    | other => other)

/-- One creation step of `createDirectoryTree`'s inner loop: when no child
with the wanted name and kind exists, the new node is pushed and the
children list is re-sorted at once; otherwise the list is unchanged. -/
def insertHere (ns : List FolderNode) (part : String) (wantFolder : Bool) : List FolderNode :=
  if cdtFind ns part wantFolder then ns
  else sortNodes (ns ++ [if wantFolder then FolderNode.folder part [] else FolderNode.file part])

/-- Insert one split path into a children list, mirroring the inner loop of
`createDirectoryTree`: the last part is a file iff `hasFileExtension`
holds of it; a missing node is created and the touched children list is
re-sorted at once; the walk then descends into the folder named like the
current part. -/
def insertParts (ns : List FolderNode) : List String → List FolderNode
  | [] => ns
  | part :: rest =>
    let wantFolder := !(rest.isEmpty && hasFileExtension part)
    let ns1 := insertHere ns part wantFolder
    if rest.isEmpty then ns1
    else updateFolderChildren ns1 part (fun cs => insertParts cs rest)

/-- Processing of one path of `createDirectoryTree`'s outer loop: blank
paths and paths with no non-blank parts are skipped, the rest are split on
`/`, cleaned and inserted. -/
def cdtStep (acc : List FolderNode) (p : String) : List FolderNode :=
  if strTrim p = "" then acc
  else
    let parts := (strSplitOn '/' p).filter (fun part => part != "" && strTrim part != "")
    if parts.isEmpty then acc else insertParts acc parts

/-- The children of the synthesized super-root after all paths of the
(lexicographically sorted) input are inserted. -/
def buildRootChildren (paths : List String) : List FolderNode :=
  (List.insertionSort strLe paths).foldl cdtStep []

/-- The final return of `createDirectoryTree`: a singleton folder child is
returned as the sole root (the unwrap branch returns `[root.children[0]]`,
which is the same list as `root.children`); otherwise the children are
returned as they are. -/
def cdtFinalize : List FolderNode → List FolderNode
  | [FolderNode.folder n cs] => [FolderNode.folder n cs]
  | cs => cs

/-- The plain path-list adapter `createDirectoryTree` from `src/utils.ts`. -/
def createDirectoryTree (paths : List String) : List FolderNode :=
  if paths.length == 0 then [] else cdtFinalize (buildRootChildren paths)

/-! ### Materializer (`createStructure`) -/

/-- One filesystem operation issued by the materializer. -/
inductive FsOp where
  | writeFileOp : String → String → FsOp
  | mkdirOp : String → FsOp
deriving Repr, DecidableEq

/-- Filesystem state: file contents by path, plus the set of directories.
`mkdir` with `recursive: true` is modelled as adding the directory itself
(parent creation does not affect any claim). -/
structure Fs where
  files : List (String × String)
  dirs : List String
deriving Repr, DecidableEq

/-- Write (create or truncate) a file: the path now maps to the given
content, any previous binding is dropped. -/
def setFile (m : List (String × String)) (p v : String) : List (String × String) :=
  (p, v) :: m.filter (fun e => e.1 != p)

/-- Content of the file at `p`, if any. -/
def lookupFile : List (String × String) → String → Option String
  | [], _ => none
  | (q, v) :: rest, p => if q = p then some v else lookupFile rest p

/-- `existsSync`: true when a directory or a file exists at the path. -/
def existsSyncB (fs : Fs) (p : String) : Bool :=
  fs.dirs.any (fun d => d == p) || fs.files.any (fun e => e.1 == p)

/-- `path.join` for the relative segments used here: empty and `"."`
components vanish, the rest are joined with `/` (an all-empty join is
`"."`). Embedded `..` or separator normalization is not modelled; no claim
depends on it. -/
def pjoin (parts : List String) : String :=
  let cleaned := parts.filter (fun p => p != "" && p != ".")
  if cleaned.isEmpty then "." else String.intercalate "/" cleaned

mutual

/-- The materializer `createStructure` from `src/utils.ts`, rendered as a
state-passing function that also returns the trace of filesystem operations
in issue order: a file is written (empty, truncating) unconditionally; a
folder is created only when nothing exists at its path, then the children
are materialized with the parent-relative path extended by the folder's
name. -/
def createStructure (fs : Fs) : FolderNode → String → String → Fs × List FsOp
  | .file name, base, parentPath =>
      let full := pjoin [base, parentPath, name]
      (Fs.mk (setFile fs.files full "") fs.dirs, [FsOp.writeFileOp full ""])
  | .folder name cs, base, parentPath =>
      let full := pjoin [base, parentPath, name]
      let step :=
        if existsSyncB fs full then (fs, ([] : List FsOp))
        else (Fs.mk fs.files (full :: fs.dirs), [FsOp.mkdirOp full])
      let rec1 := createList step.1 cs base (pjoin [parentPath, name])
      (rec1.1, step.2 ++ rec1.2)
termination_by structural n => n

/-- Materialize a children list left to right, threading the filesystem
state. -/
def createList (fs : Fs) : List FolderNode → String → String → Fs × List FsOp
  | [], _, _ => (fs, [])
  | c :: rest, base, pp =>
      let r1 := createStructure fs c base pp
      let r2 := createList r1.1 rest base pp
      (r2.1, r1.2 ++ r2.2)
termination_by structural l => l

end

/-! ### CLI dispatch (`src/cli.ts`) -/

/-- The structured-format CLI inputs after `JSON.parse`: `none` models a
parse failure (`parseToJSON` catches the exception, prints its message and
returns `undefined`). -/
inductive CliParsed where
  | nestedInput : Option (List (String × NestedVal)) → CliParsed
  | flatInput : Option (List (String × Bool)) → CliParsed
  | segmentsInput : Option (List (List String)) → CliParsed

/-- Result of a CLI run: console messages in order, filesystem operations
performed, and the exit code when the run aborted early. -/
structure CliResult where
  msgs : List String
  ops : List FsOp
  exitCode : Option Nat
deriving DecidableEq

/-- Messages printed while parsing, and the node list handed on: a parse
failure prints `❌ Input format malformed` and passes `undefined` to the
adapter, whose input guard then returns the empty forest. -/
def cliNodes : CliParsed → List String × List FolderNode
  | .nestedInput (some v) => ([], transformNestedTree v)
  | .flatInput (some v) => ([], transformFlatObject v)
  | .segmentsInput (some v) => ([], parsePathSegments v)
  | .nestedInput none => (["❌ Input format malformed"], [])
  | .flatInput none => (["❌ Input format malformed"], [])
  | .segmentsInput none => (["❌ Input format malformed"], [])

/-- The tail of `main` in `src/cli.ts`: an empty node list aborts with exit
code 1 before any filesystem call; otherwise the first root is materialized
into the current directory. -/
def cliRun (fs : Fs) (p : CliParsed) : CliResult :=
  let parsed := cliNodes p
  match parsed.2 with
  | [] =>
      CliResult.mk (parsed.1 ++ ["❌ Error: No valid nodes parsed from input"]) [] (some 1)
  | root :: _ =>
      let r := createStructure fs root "." ""
      CliResult.mk parsed.1 r.2 none

/-- The plain path-list test input of the test suite. -/
def pathsArrayInputLit : List String :=
  ["autofold", "autofold/packages", "autofold/packages/core", "autofold/packages/cli",
   "autofold/packages/config", "autofold/packages/types", "autofold/packages/modules",
   "autofold/packages/modules/proxy", "autofold/packages/modules/static",
   "autofold/packages/modules/tls", "autofold/packages/modules/logging",
   "autofold/examples", "autofold/tests", "autofold/.bunfig.toml", "autofold/main.ts",
   "autofold/tsconfig.json"]

/-- The nested-mapping test input of the test suite, in entry order. -/
def nestedTreeInputLit : List (String × NestedVal) :=
  [("autofold", NestedVal.obj
    [(".bunfig.toml", NestedVal.nullVal),
     ("tsconfig.json", NestedVal.nullVal),
     ("main.ts", NestedVal.nullVal),
     ("packages", NestedVal.obj
       [("core", NestedVal.obj []),
        ("cli", NestedVal.obj []),
        ("config", NestedVal.obj []),
        ("types", NestedVal.obj []),
        ("modules", NestedVal.obj
          [("proxy", NestedVal.obj []),
           ("static", NestedVal.obj []),
           ("tls", NestedVal.obj []),
           ("logging", NestedVal.obj [])])]),
     ("examples", NestedVal.obj []),
     ("tests", NestedVal.obj [])])]

/-- The path-segment test input of the test suite. -/
def pathSegmentsInputLit : List (List String) :=
  [["autofold"], ["autofold", "packages"], ["autofold", "packages", "core"],
   ["autofold", "packages", "cli"], ["autofold", "packages", "config"],
   ["autofold", "packages", "types"], ["autofold", "packages", "modules"],
   ["autofold", "packages", "modules", "proxy"], ["autofold", "packages", "modules", "static"],
   ["autofold", "packages", "modules", "tls"], ["autofold", "packages", "modules", "logging"],
   ["autofold", "examples"], ["autofold", "tests"], ["autofold", ".bunfig.toml"],
   ["autofold", "main.ts"], ["autofold", "tsconfig.json"]]

/-- The flat-mapping test input of the test suite, in key order. -/
def flatObjectInputLit : List (String × Bool) :=
  [("autofold", true), ("autofold/.bunfig.toml", true), ("autofold/main.ts", true),
   ("autofold/tsconfig.json", true), ("autofold/packages", true),
   ("autofold/packages/core", true), ("autofold/packages/cli", true),
   ("autofold/packages/config", true), ("autofold/packages/types", true),
   ("autofold/packages/modules", true), ("autofold/packages/modules/proxy", true),
   ("autofold/packages/modules/static", true), ("autofold/packages/modules/tls", true),
   ("autofold/packages/modules/logging", true), ("autofold/examples", true),
   ("autofold/tests", true)]

/-- Whether `pat` occurs as a contiguous sublist of `s`. -/
def listContainsSub (pat : List Char) : List Char → Bool
  | [] => pat.isEmpty
  | c :: rest => pat.isPrefixOf (c :: rest) || listContainsSub pat rest

/-- Whether a format name occurs as a substring of a message. -/
def mentionsFormat (msg fmt : String) : Bool := listContainsSub fmt.data msg.data

/-! ### Helper lemmas about the canonical sort -/

theorem sortForest_eq_map (l : List FolderNode) : sortForest l = l.map sortNode := by
  induction l with
  | nil => rfl
  | cons x xs ih => simp [sortForest, ih]

theorem sortNode_preserves_name (n : FolderNode) : (sortNode n).name = n.name := by
  cases n <;> rfl

theorem sortNode_preserves_isFolder (n : FolderNode) : (sortNode n).isFolder = n.isFolder := by
  cases n <;> rfl

theorem nodeLeb_congr (a a' b b' : FolderNode) (ha1 : a'.name = a.name)
    (ha2 : a'.isFolder = a.isFolder) (hb1 : b'.name = b.name) (hb2 : b'.isFolder = b.isFolder) :
    nodeLeb a' b' = nodeLeb a b := by
  rcases a' with n | ⟨n, cs⟩ <;> rcases b' with m | ⟨m, ds⟩ <;>
    rcases a with p | ⟨p, xs⟩ <;> rcases b with q | ⟨q, ys⟩ <;>
    simp_all [nodeLeb, FolderNode.name, FolderNode.isFolder]

theorem nodeLe_sortNode_iff (a b : FolderNode) : nodeLe a b ↔ nodeLe (sortNode a) (sortNode b) := by
  unfold nodeLe
  rw [nodeLeb_congr a (sortNode a) b (sortNode b) (sortNode_preserves_name a)
    (sortNode_preserves_isFolder a) (sortNode_preserves_name b) (sortNode_preserves_isFolder b)]

/-- Sorting one level and then recursing into the nodes equals recursing and
then sorting: the two renderings of the source's `sortChildren` coincide. -/
theorem sortNodes_sortForest_comm (cs : List FolderNode) :
    sortNodes (sortForest cs) = sortForest (sortNodes cs) := by
  rw [sortForest_eq_map, sortForest_eq_map]
  exact (List.map_insertionSort nodeLe nodeLe sortNode cs
    (fun a _ b _ => nodeLe_sortNode_iff a b)).symm

theorem chain'_sortNodes (l : List FolderNode) : List.Chain' nodeLe (sortNodes l) :=
  (List.sorted_insertionSort nodeLe l).chain'

theorem sortedNodes_sortNodes (l : List FolderNode) : sortedNodes (sortNodes l) = true :=
  (sortedNodes_iff_chain' _).mpr (chain'_sortNodes l)

theorem allWellSorted_iff (l : List FolderNode) :
    allWellSorted l = true ↔ ∀ n ∈ l, wellSorted n = true := by
  induction l with
  | nil => simp [allWellSorted]
  | cons x xs ih => simp [allWellSorted, ih]

theorem wellSorted_sortNode (n : FolderNode) : wellSorted (sortNode n) = true := by
  induction n using FolderNode.inductionOn with
  | h1 s => rfl
  | h2 s cs ih =>
    show wellSorted (FolderNode.folder s (sortNodes (sortForest cs))) = true
    rw [wellSorted, Bool.and_eq_true]
    refine ⟨sortedNodes_sortNodes _, ?_⟩
    rw [allWellSorted_iff]
    intro n hn
    rw [sortNodes, List.mem_insertionSort, sortForest_eq_map] at hn
    obtain ⟨c, hc, rfl⟩ := List.mem_map.mp hn
    exact ih c hc

theorem wellSorted_of_mem_sortForest (roots : List FolderNode) (n : FolderNode)
    (hn : n ∈ sortForest roots) : wellSorted n = true := by
  rw [sortForest_eq_map] at hn
  obtain ⟨c, _, rfl⟩ := List.mem_map.mp hn
  exact wellSorted_sortNode c

/-- The comparator spelled out: a node sorts no later than another exactly
when it is a folder and the other a file, or both have the same kind and
the first name is no greater — the "folders before files, then
lexicographic by name" order of the spec. -/
theorem nodeLe_characterization (a b : FolderNode) :
    nodeLe a b ↔
      (a.isFolder = true ∧ b.isFolder = false) ∨
      (a.isFolder = b.isFolder ∧ strLe a.name b.name) := by
  rcases a with n | ⟨n, cs⟩ <;> rcases b with m | ⟨m, ds⟩ <;>
    simp [nodeLe, nodeLeb, strLe, FolderNode.name, FolderNode.isFolder]

/-- A sorted children list is pairwise ordered, not merely in adjacent
pairs (the comparator is transitive). -/
theorem sortedNodes_pairwise (l : List FolderNode) (h : sortedNodes l = true) :
    l.Pairwise nodeLe :=
  List.chain'_iff_pairwise.mp ((sortedNodes_iff_chain' l).mp h)

theorem cdtFinalize_eq : ∀ cs : List FolderNode, cdtFinalize cs = cs
  | [] => rfl
  | [FolderNode.folder _ _] => rfl
  | [FolderNode.file _] => rfl
  | FolderNode.file _ :: _ :: _ => rfl
  | FolderNode.folder _ _ :: _ :: _ => rfl

theorem wellSorted_folder (s : String) (cs : List FolderNode) :
    wellSorted (FolderNode.folder s cs) = (sortedNodes cs && allWellSorted cs) := rfl

theorem mem_collectNodes (es : List (String × NestedVal)) (n : FolderNode)
    (hn : n ∈ collectNodes es) : ∃ p ∈ es, n = entryNode p.1 p.2 := by
  induction es with
  | nil => simp [collectNodes] at hn
  | cons e rest ih =>
    rcases e with ⟨nm, v⟩
    by_cases h : nm = ""
    · rw [collectNodes, if_pos h] at hn
      obtain ⟨p, hp, he⟩ := ih hn
      exact ⟨p, List.mem_cons_of_mem _ hp, he⟩
    · rw [collectNodes, if_neg h] at hn
      rcases List.mem_cons.mp hn with he | hrest
      · exact ⟨(nm, v), List.mem_cons_self _ _, he⟩
      · obtain ⟨p, hp, he⟩ := ih hrest
        exact ⟨p, List.mem_cons_of_mem _ hp, he⟩

theorem wellSorted_traverseLevel (k : Nat) : ∀ es : List (String × NestedVal),
    sizeOf es ≤ k → ∀ n ∈ traverseLevel es, wellSorted n = true := by
  induction k using Nat.strong_induction_on with
  | _ k ih =>
    intro es hk n hn
    rw [traverseLevel, sortNodes, List.mem_insertionSort] at hn
    obtain ⟨⟨nm, v⟩, hp, rfl⟩ := mem_collectNodes es n hn
    have hvs : sizeOf v < sizeOf es := by
      have h1 := List.sizeOf_lt_of_mem hp
      simp only [Prod.mk.sizeOf_spec] at h1
      omega
    cases v with
    | nullVal => rfl
    | strVal s =>
        rcases h : (s.length == 0 && strContainsChar '.' nm) <;>
          simp [entryNode, h, wellSorted, sortedNodes, allWellSorted]
    | obj es2 =>
        rcases h : (es2.length == 0 && strContainsChar '.' nm)
        · have hes2 : sizeOf es2 < k := by
            have : sizeOf (NestedVal.obj es2) = 1 + sizeOf es2 := by
              simp [NestedVal.obj.sizeOf_spec]
            omega
          rw [entryNode, if_neg (by simp [h])]
          rw [wellSorted, Bool.and_eq_true]
          refine ⟨sortedNodes_sortNodes _, ?_⟩
          rw [allWellSorted_iff]
          intro m hm
          exact ih (sizeOf es2) hes2 es2 le_rfl m hm
        · rw [entryNode, if_pos (by simp [h])]
          rfl

theorem chain'_nodeLe_map (g : FolderNode → FolderNode)
    (hg : ∀ n, (g n).name = n.name ∧ (g n).isFolder = n.isFolder) (l : List FolderNode) :
    List.Chain' nodeLe (l.map g) ↔ List.Chain' nodeLe l := by
  rw [List.chain'_map]
  have hpt : ∀ a b : FolderNode, nodeLe (g a) (g b) ↔ nodeLe a b := by
    intro a b
    unfold nodeLe
    rw [nodeLeb_congr a (g a) b (g b) (hg a).1 (hg a).2 (hg b).1 (hg b).2]
  exact ⟨fun h => h.imp (fun a b hab => (hpt a b).mp hab),
    fun h => h.imp (fun a b hab => (hpt a b).mpr hab)⟩

theorem sortedNodes_map_keys (g : FolderNode → FolderNode)
    (hg : ∀ n, (g n).name = n.name ∧ (g n).isFolder = n.isFolder) (l : List FolderNode) :
    sortedNodes (l.map g) = sortedNodes l := by
  have h := (sortedNodes_iff_chain' (l.map g)).trans
    ((chain'_nodeLe_map g hg l).trans (sortedNodes_iff_chain' l).symm)
  exact Bool.eq_iff_iff.mpr h

theorem updateFolder_keys (nm : String) (f : List FolderNode → List FolderNode)
    (n : FolderNode) :
    (((fun n => match n with
        | FolderNode.folder name cs =>
            if name = nm then FolderNode.folder name (f cs) else FolderNode.folder name cs
        | other => other) : FolderNode → FolderNode) n).name = n.name ∧
    (((fun n => match n with
        | FolderNode.folder name cs =>
            if name = nm then FolderNode.folder name (f cs) else FolderNode.folder name cs
        | other => other) : FolderNode → FolderNode) n).isFolder = n.isFolder := by
  cases n with
  | file s => exact ⟨rfl, rfl⟩
  | folder name cs =>
      by_cases h : name = nm <;> simp [h, FolderNode.name, FolderNode.isFolder]

theorem sortedNodes_updateFolder (ns : List FolderNode) (nm : String)
    (f : List FolderNode → List FolderNode) :
    sortedNodes (updateFolderChildren ns nm f) = sortedNodes ns := by
  unfold updateFolderChildren
  exact sortedNodes_map_keys _ (updateFolder_keys nm f) ns

theorem allWellSorted_updateFolder (ns : List FolderNode) (nm : String)
    (f : List FolderNode → List FolderNode)
    (hf : ∀ cs, sortedNodes cs = true → allWellSorted cs = true →
      sortedNodes (f cs) = true ∧ allWellSorted (f cs) = true)
    (hns : allWellSorted ns = true) : allWellSorted (updateFolderChildren ns nm f) = true := by
  rw [allWellSorted_iff] at hns ⊢
  intro n hn
  unfold updateFolderChildren at hn
  obtain ⟨m, hm, rfl⟩ := List.mem_map.mp hn
  have hwm := hns m hm
  cases m with
  | file s => exact hwm
  | folder name cs =>
      by_cases h : name = nm
      · rw [wellSorted_folder, Bool.and_eq_true] at hwm
        have hfc := hf cs hwm.1 hwm.2
        subst h
        show wellSorted (if name = name then FolderNode.folder name (f cs)
          else FolderNode.folder name cs) = true
        rw [if_pos rfl, wellSorted_folder, Bool.and_eq_true]
        exact hfc
      · show wellSorted (if name = nm then FolderNode.folder name (f cs)
          else FolderNode.folder name cs) = true
        rw [if_neg h]
        exact hwm

theorem insertHere_inv (ns : List FolderNode) (part : String) (wantFolder : Bool)
    (h1 : sortedNodes ns = true) (h2 : allWellSorted ns = true) :
    sortedNodes (insertHere ns part wantFolder) = true ∧
    allWellSorted (insertHere ns part wantFolder) = true := by
  unfold insertHere
  by_cases h : cdtFind ns part wantFolder
  · rw [if_pos h]
    exact ⟨h1, h2⟩
  · rw [if_neg h]
    refine ⟨sortedNodes_sortNodes _, ?_⟩
    rw [allWellSorted_iff]
    intro n hn
    rw [sortNodes, List.mem_insertionSort] at hn
    rcases List.mem_append.mp hn with hl | hr
    · exact (allWellSorted_iff ns).mp h2 n hl
    · rw [List.mem_singleton] at hr
      subst hr
      cases wantFolder <;> rfl

theorem insertParts_inv : ∀ (parts : List String) (ns : List FolderNode),
    sortedNodes ns = true → allWellSorted ns = true →
    sortedNodes (insertParts ns parts) = true ∧ allWellSorted (insertParts ns parts) = true := by
  intro parts
  induction parts with
  | nil => exact fun ns h1 h2 => ⟨h1, h2⟩
  | cons part rest ih =>
    intro ns h1 h2
    have hins := insertHere_inv ns part (!(rest.isEmpty && hasFileExtension part)) h1 h2
    rcases hr : rest.isEmpty
    · simp only [insertParts, hr] at hins ⊢
      simp only [Bool.false_eq_true, if_false]
      constructor
      · rw [sortedNodes_updateFolder]
        exact hins.1
      · exact allWellSorted_updateFolder _ _ _ (fun cs hc1 hc2 => ih cs hc1 hc2) hins.2
    · simp only [insertParts, hr] at hins ⊢
      simp only [if_true]
      exact hins

theorem cdtStep_inv (acc : List FolderNode) (p : String) (h1 : sortedNodes acc = true)
    (h2 : allWellSorted acc = true) :
    sortedNodes (cdtStep acc p) = true ∧ allWellSorted (cdtStep acc p) = true := by
  unfold cdtStep
  by_cases hp : strTrim p = ""
  · rw [if_pos hp]
    exact ⟨h1, h2⟩
  · rw [if_neg hp]
    rcases hq : ((strSplitOn '/' p).filter (fun part => part != "" && strTrim part != "")).isEmpty
    · simp only [hq, Bool.false_eq_true, if_false]
      exact insertParts_inv _ acc h1 h2
    · simp only [hq, if_true]
      exact ⟨h1, h2⟩

theorem buildRootChildren_inv (paths : List String) :
    sortedNodes (buildRootChildren paths) = true ∧
    allWellSorted (buildRootChildren paths) = true := by
  unfold buildRootChildren
  have haux : ∀ (l : List String) (acc : List FolderNode),
      sortedNodes acc = true → allWellSorted acc = true →
      sortedNodes (l.foldl cdtStep acc) = true ∧ allWellSorted (l.foldl cdtStep acc) = true := by
    intro l
    induction l with
    | nil => exact fun acc h1 h2 => ⟨h1, h2⟩
    | cons p l ih =>
      intro acc h1 h2
      rw [List.foldl_cons]
      have h := cdtStep_inv acc p h1 h2
      exact ih _ h.1 h.2
  exact haux _ [] rfl rfl

/-! ### Claim theorems -/

/-- C6: for every adapter, empty or blank input (blank string for the tree
adapter, zero-entry mapping for the nested and flat adapters, empty
sequence for the segments and paths adapters) returns the empty tree; every
adapter is a total function, so no error is raised. -/
theorem empty_input_empty_tree :
    (∀ s : String, strTrim s = "" → transformTreeString s = []) ∧
    transformNestedTree [] = [] ∧
    transformFlatObject [] = [] ∧
    parsePathSegments [] = [] ∧
    createDirectoryTree [] = [] := by
  refine ⟨fun s h => ?_, rfl, rfl, rfl, rfl⟩
  simp [transformTreeString, h]

/-- C6 witness: the whitespace-only string evaluates to the empty tree. -/
theorem empty_input_empty_tree_witness : transformTreeString " \n\t " = [] :=
  empty_input_empty_tree.1 " \n\t " (by decide)

/-- C9: in the nested-mapping adapter, a `null` value is a file; a mapping
value with zero entries is a file iff its key contains a dot and an empty
folder otherwise; a non-empty mapping value is a folder whose children are
the recursively traversed (and sorted) entries. -/
theorem nested_entry_classification :
    (∀ name : String, entryNode name NestedVal.nullVal = FolderNode.file name) ∧
    (∀ name : String, entryNode name (NestedVal.obj []) =
      (if strContainsChar '.' name then FolderNode.file name
       else FolderNode.folder name [])) ∧
    (∀ (name : String) (e : String × NestedVal) (es : List (String × NestedVal)),
      entryNode name (NestedVal.obj (e :: es)) =
        FolderNode.folder name (traverseLevel (e :: es))) := by
  refine ⟨fun name => rfl, fun name => ?_, fun name e es => rfl⟩
  rcases h : strContainsChar '.' name
  · simp [entryNode, h]
    rfl
  · simp [entryNode, h]

/-- C10: `transformFlatObject` reads only the keys of its input: two inputs
with the same keys in the same order give the same tree, and in particular
the boolean value of an entry never matters. -/
theorem flat_depends_only_on_keys :
    (∀ xs ys : List (String × Bool), xs.map Prod.fst = ys.map Prod.fst →
      transformFlatObject xs = transformFlatObject ys) ∧
    (∀ (key : String) (b b' : Bool) (rest : List (String × Bool)),
      transformFlatObject ((key, b) :: rest) = transformFlatObject ((key, b') :: rest)) := by
  constructor
  · intro xs ys h
    unfold transformFlatObject
    rw [h]
  · intro key b b' rest
    rfl

/-- C10 witness: a key mapped to `false` yields the same tree as the same
key mapped to `true`. -/
theorem flat_depends_only_on_keys_witness :
    transformFlatObject [("a", true)] = transformFlatObject [("a", false)] :=
  flat_depends_only_on_keys.1 [("a", true)] [("a", false)] (by decide)

/-- C7: `createDirectoryTree` returns the super-root's children; when that
children list is exactly one folder, that folder is returned as the sole
root (the unwrap branch returns `[root.children[0]]`, which is that child —
and also exactly the children list, so both halves of the claim hold). -/
theorem createDirectoryTree_unwrap :
    (∀ paths : List String, createDirectoryTree paths = buildRootChildren paths) ∧
    (∀ (paths : List String) (n : String) (cs : List FolderNode),
      buildRootChildren paths = [FolderNode.folder n cs] →
      createDirectoryTree paths = [FolderNode.folder n cs]) := by
  have h1 : ∀ paths : List String, createDirectoryTree paths = buildRootChildren paths := by
    intro paths
    cases paths with
    | nil => rfl
    | cons p ps =>
        show cdtFinalize (buildRootChildren (p :: ps)) = buildRootChildren (p :: ps)
        exact cdtFinalize_eq _
  exact ⟨h1, fun paths n cs h => by rw [h1 paths, h]⟩

/-- C7 witness: a one-path input whose super-root has a single folder child
returns that folder as the sole root. -/
theorem createDirectoryTree_unwrap_witness :
    createDirectoryTree ["proj/src"] = [FolderNode.folder "proj" [FolderNode.folder "src" []]] :=
  createDirectoryTree_unwrap.2 ["proj/src"] "proj" [FolderNode.folder "src" []] (by decide)

/-- C5 counterexample: for malformed nested input the CLI prints
`❌ Input format malformed` and `❌ Error: No valid nodes parsed from input`
and exits with code 1 — neither message names the offending format
(`nested` occurs in no message), so no `ParseError` naming the format is
reported; the abort itself (no tree, no filesystem operation) does
happen. -/
theorem cli_malformed_message_lacks_format :
    cliRun (Fs.mk [] []) (CliParsed.nestedInput none) =
      CliResult.mk ["❌ Input format malformed", "❌ Error: No valid nodes parsed from input"]
        [] (some 1) ∧
    ((cliRun (Fs.mk [] []) (CliParsed.nestedInput none)).msgs.all
      (fun m => !(mentionsFormat m "nested"))) = true := by
  exact ⟨rfl, by decide⟩

/-- C5 (amended): malformed structured input to the nested, flat or
segments format makes the CLI print the generic malformed-input message
(without the format name), abort with exit code 1 having produced no tree,
and perform no filesystem operation. -/
theorem cli_malformed_aborts_without_fs :
    ∀ fs : Fs,
      cliRun fs (CliParsed.nestedInput none) =
        CliResult.mk ["❌ Input format malformed", "❌ Error: No valid nodes parsed from input"]
          [] (some 1) ∧
      cliRun fs (CliParsed.flatInput none) =
        CliResult.mk ["❌ Input format malformed", "❌ Error: No valid nodes parsed from input"]
          [] (some 1) ∧
      cliRun fs (CliParsed.segmentsInput none) =
        CliResult.mk ["❌ Input format malformed", "❌ Error: No valid nodes parsed from input"]
          [] (some 1) :=
  fun _ => ⟨rfl, rfl, rfl⟩

/-- C2 counterexample: in the tree-string adapter the entry `a.b` is
classified as a file although a deeper entry stands beneath it (the claim
requires a non-terminal, descendant-bearing entry to be a folder); the
deeper entry `c` does not attach beneath it but becomes a separate root. -/
theorem treeString_classifies_dotted_nonterminal_as_file :
    transformTreeString "a.b\n    c" = [FolderNode.file "a.b", FolderNode.folder "c" []] := by
  decide

/-- C2 (amended): in the flat and segments builders a segment is classified
as a file iff it is at the last index of its path and contains a dot, and a
segment with no dot is never a file; in the tree-string adapter, however,
classification ignores position: an entry is a file iff its trimmed text
contains a dot, even when deeper entries follow beneath it (which then do
not attach beneath it), as the concrete run shows. -/
theorem dot_rule_classification :
    (∀ (i total : Nat) (seg : String),
      segIsFile i total seg = true ↔ (i = total - 1 ∧ strContainsChar '.' seg = true)) ∧
    (∀ (i total : Nat) (seg : String),
      strContainsChar '.' seg = false → segIsFile i total seg = false) ∧
    transformTreeString "x.y\n    kid\n    sub.txt" =
      [FolderNode.file "x.y", FolderNode.folder "kid" [], FolderNode.file "sub.txt"] := by
  refine ⟨fun i total seg => ?_, fun i total seg h => ?_, by decide⟩
  · simp [segIsFile, Bool.and_eq_true]
  · simp [segIsFile, h]

/-- C2 witness: a dot-free segment is never classified as a file. -/
theorem dot_rule_classification_witness : segIsFile 2 3 "nodot" = false :=
  dot_rule_classification.2.1 2 3 "nodot" (by decide)

/-- C4 counterexample: an earlier key classifies `a.b` as a file; a later
key extending past it leaves the file node unchanged (it is not overwritten
to a folder) and the descendant `c` is not attached anywhere in the
returned tree — the result is still the bare file, in both builder-style
adapters. -/
theorem file_prefix_not_overwritten :
    transformFlatObject [("a.b", true), ("a.b/c", true)] = [FolderNode.file "a.b"] ∧
    parsePathSegments [["a.b"], ["a.b", "c"]] = [FolderNode.file "a.b"] :=
  ⟨by decide, by decide⟩

/-- C4 (amended): when an earlier assertion classified a path prefix as a
file, a later assertion extending past that prefix leaves the file node as
it is and its would-be descendants are dropped from the returned tree (they
are recorded in the node map but never attached beneath any root): for any
dotted single-segment prefix the segments adapter returns just the file,
and the flat adapter behaves the same on a concrete two-level extension. -/
theorem file_prefix_kept_descendants_dropped :
    (∀ s c : String, s ≠ "" → strContainsChar '.' s = true →
      parsePathSegments [[s], [s, c]] = [FolderNode.file s]) ∧
    transformFlatObject [("a.b", true), ("a.b/c/d", true)] = [FolderNode.file "a.b"] := by
  refine ⟨fun s c hs hdot => ?_, by decide⟩
  have hone : ("/" : String).length = 1 := rfl
  have hne : ¬(s = s ++ "/" ++ c) := by
    intro h
    have hlen := congrArg String.length h
    rw [String.length_append, String.length_append] at hlen
    omega
  by_cases hc : c = ""
  · subst hc
    simp [parsePathSegments, procSegs, lookupPath, segIsFile, hs, hdot, sortForest, sortNode]
  · simp [parsePathSegments, procSegs, lookupPath, segIsFile, hs, hdot, hc, hne,
      sortForest, sortNode]

/-- C4 witness: a concrete instance of the general statement. -/
theorem file_prefix_kept_witness :
    parsePathSegments [["pre.txt"], ["pre.txt", "kid"]] = [FolderNode.file "pre.txt"] :=
  file_prefix_kept_descendants_dropped.1 "pre.txt" "kid" (by decide) (by decide)

/-- C1 counterexample: the adapters do not produce identical trees for
every logical structure. On "a single file named `x.xyz`" the path-list
adapter (extension allow-list, which lacks `.xyz`) builds a folder while
the flat adapter (generic dot rule) builds a file; and on "a folder named
`a.b` containing the file `c.txt`" the nested adapter builds the folder
with its child while the flat adapter classifies the prefix `a.b` as a
file and drops the child — a divergence independent of the allow-list. -/
theorem adapters_disagree_on_unknown_extension :
    createDirectoryTree ["x.xyz"] = [FolderNode.folder "x.xyz" []] ∧
    transformFlatObject [("x.xyz", true)] = [FolderNode.file "x.xyz"] ∧
    createDirectoryTree ["x.xyz"] ≠ transformFlatObject [("x.xyz", true)] ∧
    transformNestedTree [("a.b", NestedVal.obj [("c.txt", NestedVal.nullVal)])] =
      [FolderNode.folder "a.b" [FolderNode.file "c.txt"]] ∧
    transformFlatObject [("a.b", true), ("a.b/c.txt", true)] = [FolderNode.file "a.b"] ∧
    transformNestedTree [("a.b", NestedVal.obj [("c.txt", NestedVal.nullVal)])] ≠
      transformFlatObject [("a.b", true), ("a.b/c.txt", true)] :=
  ⟨by decide, by decide, by decide, by decide, by decide, by decide⟩

/-- C1 (amended): the five adapters agree on the test suite's five
equivalent example inputs for the `autofold` project, all producing the
expected canonical tree; the fully general equivalence fails because the
path-list adapter classifies files by an extension allow-list while the
other adapters use the generic dot rule. -/
theorem adapters_agree_on_testsuite_inputs :
    transformTreeString treeInputLit = expectedOutputLit ∧
    transformNestedTree nestedTreeInputLit = expectedOutputLit ∧
    transformFlatObject flatObjectInputLit = expectedOutputLit ∧
    parsePathSegments pathSegmentsInputLit = expectedOutputLit ∧
    createDirectoryTree pathsArrayInputLit = expectedOutputLit :=
  ⟨by decide!, by decide!, by decide!, by decide!, by decide!⟩

/-- C8: the materializer writes an empty file unconditionally (truncating
whatever was there), creates a directory only when nothing exists at its
path (an existing directory is left untouched and no mkdir is issued), and
recurses into the children with the parent-relative path extended by the
folder's name, the mkdir standing strictly before every descendant
operation in the trace. -/
theorem createStructure_spec :
    (∀ (fs : Fs) (base parentPath name : String),
      createStructure fs (FolderNode.file name) base parentPath =
        (Fs.mk (setFile fs.files (pjoin [base, parentPath, name]) "") fs.dirs,
         [FsOp.writeFileOp (pjoin [base, parentPath, name]) ""])) ∧
    (∀ (m : List (String × String)) (p : String), lookupFile (setFile m p "") p = some "") ∧
    (∀ (fs : Fs) (base parentPath name : String) (cs : List FolderNode),
      existsSyncB fs (pjoin [base, parentPath, name]) = true →
      createStructure fs (FolderNode.folder name cs) base parentPath =
        createList fs cs base (pjoin [parentPath, name])) ∧
    (∀ (fs : Fs) (base parentPath name : String) (cs : List FolderNode),
      existsSyncB fs (pjoin [base, parentPath, name]) = false →
      createStructure fs (FolderNode.folder name cs) base parentPath =
        ((createList (Fs.mk fs.files (pjoin [base, parentPath, name] :: fs.dirs)) cs base
            (pjoin [parentPath, name])).1,
         FsOp.mkdirOp (pjoin [base, parentPath, name]) ::
           (createList (Fs.mk fs.files (pjoin [base, parentPath, name] :: fs.dirs)) cs base
             (pjoin [parentPath, name])).2)) := by
  refine ⟨fun fs base parentPath name => rfl, fun m p => ?_, ?_, ?_⟩
  · simp [setFile, lookupFile]
  · intro fs base parentPath name cs h
    simp [createStructure, h]
  · intro fs base parentPath name cs h
    simp [createStructure, h]

/-- C3: in the tree returned by any of the five adapters, every folder's
children, at every depth, are ordered with folders before files and within
each kind lexicographically by name — `wellSorted` states exactly that the
children of every folder in the subtree form a chain under the shared
comparator (folders before files, then name order). -/
theorem adapters_children_sorted :
    (∀ (s : String) (n : FolderNode), n ∈ transformTreeString s → wellSorted n = true) ∧
    (∀ (input : List (String × NestedVal)) (n : FolderNode),
      n ∈ transformNestedTree input → wellSorted n = true) ∧
    (∀ (input : List (String × Bool)) (n : FolderNode),
      n ∈ transformFlatObject input → wellSorted n = true) ∧
    (∀ (paths : List (List String)) (n : FolderNode),
      n ∈ parsePathSegments paths → wellSorted n = true) ∧
    (∀ (paths : List String) (n : FolderNode),
      n ∈ createDirectoryTree paths → wellSorted n = true) := by
  refine ⟨?_, ?_, ?_, ?_, ?_⟩
  · intro s n hn
    by_cases h : strTrim s = ""
    · rw [transformTreeString, if_pos h] at hn
      simp at hn
    · rw [transformTreeString, if_neg h] at hn
      exact wellSorted_of_mem_sortForest _ n hn
  · intro input n hn
    exact wellSorted_traverseLevel (sizeOf input) input le_rfl n hn
  · intro input n hn
    rw [transformFlatObject, flatFromKeys] at hn
    rcases h : ((input.map Prod.fst).length == 0)
    · rw [if_neg (by intro hc; rw [h] at hc; exact nomatch hc)] at hn
      exact wellSorted_of_mem_sortForest _ n hn
    · rw [if_pos h] at hn
      simp at hn
  · intro paths n hn
    rw [parsePathSegments] at hn
    rcases h : (paths.length == 0)
    · rw [if_neg (by intro hc; rw [h] at hc; exact nomatch hc)] at hn
      exact wellSorted_of_mem_sortForest _ n hn
    · rw [if_pos h] at hn
      simp at hn
  · intro paths n hn
    rw [createDirectoryTree] at hn
    rcases h : (paths.length == 0)
    · rw [if_neg (by intro hc; rw [h] at hc; exact nomatch hc), cdtFinalize_eq] at hn
      exact (allWellSorted_iff _).mp (buildRootChildren_inv paths).2 n hn
    · rw [if_pos h] at hn
      simp at hn

/-- C3 witness: a tree-string run whose folder children come back sorted. -/
theorem adapters_children_sorted_witness :
    wellSorted (FolderNode.folder "p" [FolderNode.folder "a" [], FolderNode.folder "b" []]) = true :=
  adapters_children_sorted.1 "p\n    b\n    a"
    (FolderNode.folder "p" [FolderNode.folder "a" [], FolderNode.folder "b" []]) (by decide)

/-- C8 witness: materializing a folder whose directory already exists
issues no mkdir and just recurses (here into no children). -/
theorem createStructure_spec_witness :
    createStructure (Fs.mk [] ["out"]) (FolderNode.folder "out" []) "." "" =
      createList (Fs.mk [] ["out"]) [] "." (pjoin ["", "out"]) :=
  createStructure_spec.2.2.1 (Fs.mk [] ["out"]) "." "" "out" [] (by decide)

end Autofold
